import Mathlib

/-!
Verification development for the figma-cli node-tree utility layer.

The definitions below are a shallow embedding of the TypeScript sources:
  - src/utils/nodes.ts       (normalizeNodeId, findNodePath, toTree)
  - src/commands/styles.ts   (inferPaddingFromChildren, buildStyleDetails)
  - src/commands/diff.ts     (snapshot, arrayDiff, toHex)
  - src/commands/export.ts   (resolveExportScale)
  - the audit command        (runAudit, rgbaToHex)

Modelling conventions:
  - JavaScript numbers coming from JSON payloads are modelled as rationals
    (JSON cannot encode NaN or infinities).  The one place where NaN can
    genuinely reach the modelled code, the CLI-parsed export scale, uses the
    dedicated JsNumber type instead.
  - An absent `children` array is modelled as the empty list: every modelled
    function treats `undefined` children and `[]` identically.
  - JavaScript string operations are modelled on the character list backing
    a String; the numeral-to-string rendering agrees with JavaScript on the
    integral values exercised here.
-/

/-- Whitespace recognized by JavaScript string trim (ASCII subset; the node
ids handled by the tool only ever carry these). -/
def isJsWhitespace (c : Char) : Bool :=
  c = ' ' ∨ c = '\t' ∨ c = '\n' ∨ c = '\r' ∨ c = '\x0b' ∨ c = '\x0c'

/-- Character-level model of JavaScript String.prototype.trim. -/
def trimChars (l : List Char) : List Char :=
  ((l.dropWhile isJsWhitespace).reverse.dropWhile isJsWhitespace).reverse

/-- The per-character action of the regexp replace in normalizeNodeId:
every dash becomes a colon. -/
def dashToColon (c : Char) : Char :=
  if c = '-' then ':' else c

/-- Model of normalizeNodeId from src/utils/nodes.ts:
nodeId.trim().replace(dash-global, colon). -/
def normalizeNodeId (s : String) : String :=
  ⟨(trimChars s.data).map dashToColon⟩

/-- Model of String.prototype.trim on whole strings. -/
def trimString (s : String) : String :=
  ⟨trimChars s.data⟩

theorem dropWhile_isJsWhitespace_idem (l : List Char) :
    (l.dropWhile isJsWhitespace).dropWhile isJsWhitespace = l.dropWhile isJsWhitespace := by
  induction l with
  | nil => rfl
  | cons c cs ih =>
    by_cases h : isJsWhitespace c
    · simpa [List.dropWhile_cons, h] using ih
    · simp [List.dropWhile_cons, h]

theorem dropWhile_append_singleton (p : Char → Bool) (a : Char) (ha : p a = false)
    (l : List Char) : ∃ l2, (l ++ [a]).dropWhile p = l2 ++ [a] := by
  induction l with
  | nil => exact ⟨[], by simp [List.dropWhile_cons, ha]⟩
  | cons c cs ih =>
    by_cases h : p c
    · simpa [List.dropWhile_cons, h] using ih
    · exact ⟨c :: cs, by simp [List.dropWhile_cons, h]⟩

theorem trimChars_head_not_ws (l : List Char) :
    (trimChars l).dropWhile isJsWhitespace = trimChars l := by
  unfold trimChars
  cases h : l.dropWhile isJsWhitespace with
  | nil => simp
  | cons a tl =>
    have ha : isJsWhitespace a = false := by
      have := List.head?_dropWhile_not isJsWhitespace l
      rw [h] at this
      simpa using this
    obtain ⟨l2, hl2⟩ := dropWhile_append_singleton isJsWhitespace a ha tl.reverse
    rw [List.reverse_cons, hl2, List.reverse_append]
    simp [List.dropWhile_cons, ha]

theorem trimChars_idem (l : List Char) : trimChars (trimChars l) = trimChars l := by
  conv_lhs => rw [trimChars, trimChars_head_not_ws]
  rw [trimChars, List.reverse_reverse, dropWhile_isJsWhitespace_idem, ← trimChars]

theorem isJsWhitespace_dashToColon (c : Char) :
    isJsWhitespace (dashToColon c) = isJsWhitespace c := by
  by_cases h : c = '-'
  · subst h; decide
  · simp [dashToColon, h]

theorem dropWhile_ws_map_dashToColon (l : List Char) :
    (l.map dashToColon).dropWhile isJsWhitespace =
      (l.dropWhile isJsWhitespace).map dashToColon := by
  induction l with
  | nil => rfl
  | cons c cs ih =>
    by_cases h : isJsWhitespace c
    · simp [List.dropWhile_cons, h, isJsWhitespace_dashToColon, ih]
    · simp [List.dropWhile_cons, h, isJsWhitespace_dashToColon]

theorem trimChars_map_dashToColon (l : List Char) :
    trimChars (l.map dashToColon) = (trimChars l).map dashToColon := by
  unfold trimChars
  rw [dropWhile_ws_map_dashToColon, ← List.map_reverse, dropWhile_ws_map_dashToColon,
    ← List.map_reverse]

theorem dashToColon_idem (c : Char) : dashToColon (dashToColon c) = dashToColon c := by
  by_cases h : c = '-'
  · subst h; decide
  · simp [dashToColon, h]

theorem normalizeNodeId_idem (s : String) :
    normalizeNodeId (normalizeNodeId s) = normalizeNodeId s := by
  show (⟨(trimChars ((trimChars s.data).map dashToColon)).map dashToColon⟩ : String) = _
  rw [trimChars_map_dashToColon, trimChars_idem, List.map_map]
  have : dashToColon ∘ dashToColon = dashToColon := by
    funext c; exact dashToColon_idem c
  rw [this]
  rfl

theorem normalizeNodeId_no_dash (s : String) : '-' ∉ (normalizeNodeId s).data := by
  show '-' ∉ (trimChars s.data).map dashToColon
  intro hmem
  obtain ⟨c, _, hc⟩ := List.mem_map.mp hmem
  by_cases h : c = '-'
  · subst h; simp [dashToColon] at hc
  · rw [dashToColon, if_neg h] at hc; exact h hc

theorem normalizeNodeId_trimmed (s : String) :
    trimString (normalizeNodeId s) = normalizeNodeId s := by
  show (⟨trimChars ((trimChars s.data).map dashToColon)⟩ : String) = _
  rw [trimChars_map_dashToColon, trimChars_idem]
  rfl

/-- JavaScript Math.round on a finite number: round half toward positive
infinity. -/
def jsRound (q : ℚ) : ℤ :=
  ⌊q + 1/2⌋

/-- Math.round(value * 100) / 100, the two-decimal rounding used by the
padding inference. -/
def round2 (q : ℚ) : ℚ :=
  (jsRound (q * 100) : ℚ) / 100

/-- Rendering of a number as a JavaScript template string.  The embedding
renders integers exactly as JavaScript does; non-integral rationals are
rendered as a fraction (the claims only exercise integral values). -/
def qToStr (q : ℚ) : String :=
  if q.den = 1 then toString q.num else toString q.num ++ "/" ++ toString q.den

/-- Hex digits of a natural number, most significant first (fuel-indexed so
that the definition is structural and kernel-reducible). -/
def natToHexAux : Nat → Nat → List Char
  | 0, _ => []
  | fuel + 1, n =>
    if n = 0 then [] else natToHexAux fuel (n / 16) ++ [Nat.digitChar (n % 16)]

/-- Number.prototype.toString(16) for naturals. -/
def natToHex (n : Nat) : List Char :=
  if n = 0 then ['0'] else natToHexAux (n + 1) n

/-- Number.prototype.toString(16) for integers (negative numbers get a
leading minus sign, as in JavaScript). -/
def intToHex (i : ℤ) : List Char :=
  if i < 0 then '-' :: natToHex i.natAbs else natToHex i.toNat

/-- String.prototype.padStart(2, zero). -/
def padStart2 (l : List Char) : List Char :=
  if l.length = 1 then '0' :: l else if l.length = 0 then ['0', '0'] else l

/-- toByteHex from both diff.ts and styles.ts:
Math.round(n * 255).toString(16).padStart(2, zero). -/
def toByteHex (q : ℚ) : String :=
  ⟨padStart2 (intToHex (jsRound (q * 255)))⟩

/-- toHex from src/commands/diff.ts (an identical copy lives in
src/commands/styles.ts): the alpha byte is appended exactly when a < 1. -/
def toHex (r g b : ℚ) (a : ℚ) : String :=
  let base := "#" ++ toByteHex r ++ toByteHex g ++ toByteHex b
  if a < 1 then base ++ toByteHex a else base

/-- rgbaToHex from the audit command: it accepts an alpha argument but the
returned string never includes it. -/
def rgbaToHex (r g b : ℚ) (_a : ℚ) : String :=
  "#" ++ toByteHex r ++ toByteHex g ++ toByteHex b

/-- Lexicographic comparison of character lists by code unit, the order used
by JavaScript Array.prototype.sort on strings. -/
def charListLe : List Char → List Char → Bool
  | [], _ => true
  | _ :: _, [] => false
  | a :: as, b :: bs =>
    if a.toNat < b.toNat then true
    else if b.toNat < a.toNat then false
    else charListLe as bs

/-- The sort order of JavaScript default string sort. -/
def strLe (a b : String) : Prop :=
  charListLe a.data b.data = true

instance : DecidableRel strLe := fun a b => by
  unfold strLe; infer_instance

theorem charListLe_total (l1 l2 : List Char) :
    charListLe l1 l2 = true ∨ charListLe l2 l1 = true := by
  induction l1 generalizing l2 with
  | nil => left; rfl
  | cons x xs ih =>
    cases l2 with
    | nil => right; rfl
    | cons y ys =>
      simp only [charListLe]
      rcases Nat.lt_trichotomy x.toNat y.toNat with h | h | h
      · left; simp [h]
      · have h1 : ¬ x.toNat < y.toNat := by omega
        have h2 : ¬ y.toNat < x.toNat := by omega
        rcases ih ys with hh | hh
        · left; simp [h1, h2, hh]
        · right; simp [h1, h2, hh]
      · right; simp [h, Nat.lt_asymm h]

theorem charListLe_trans (l1 l2 l3 : List Char)
    (h12 : charListLe l1 l2 = true) (h23 : charListLe l2 l3 = true) :
    charListLe l1 l3 = true := by
  induction l1 generalizing l2 l3 with
  | nil => rfl
  | cons x xs ih =>
    cases l2 with
    | nil => simp [charListLe] at h12
    | cons y ys =>
      cases l3 with
      | nil => simp [charListLe] at h23
      | cons z zs =>
        simp only [charListLe] at h12 h23 ⊢
        rcases Nat.lt_trichotomy x.toNat y.toNat with hxy | hxy | hxy <;>
          rcases Nat.lt_trichotomy y.toNat z.toNat with hyz | hyz | hyz
        · simp [show x.toNat < z.toNat by omega]
        · simp [show x.toNat < z.toNat by omega]
        · simp [Nat.lt_asymm hyz, hyz] at h23
        · simp [show x.toNat < z.toNat by omega]
        · have nxz : ¬ x.toNat < z.toNat := by omega
          have nzx : ¬ z.toNat < x.toNat := by omega
          simp [show ¬ x.toNat < y.toNat by omega, show ¬ y.toNat < x.toNat by omega] at h12
          simp [show ¬ y.toNat < z.toNat by omega, show ¬ z.toNat < y.toNat by omega] at h23
          simp [nxz, nzx, ih ys zs h12 h23]
        · simp [Nat.lt_asymm hyz, hyz] at h23
        · simp [Nat.lt_asymm hxy, hxy] at h12
        · simp [Nat.lt_asymm hxy, hxy] at h12
        · simp [Nat.lt_asymm hxy, hxy] at h12

instance : IsTotal String strLe :=
  ⟨fun a b => charListLe_total a.data b.data⟩

instance : IsTrans String strLe :=
  ⟨fun a b c => charListLe_trans a.data b.data c.data⟩

/-- Model of JavaScript Array.prototype.sort() on a list of strings. -/
def sortJs (l : List String) : List String :=
  List.insertionSort strLe l

theorem sortJs_sorted (l : List String) : (sortJs l).Sorted strLe :=
  List.sorted_insertionSort strLe l

/-- Insertion-order deduplication, the observable content of filling a
JavaScript Set and converting it back with Array.from. -/
def dedupInsert {α : Type} [DecidableEq α] (l : List α) : List α :=
  l.foldl (fun acc s => if s ∈ acc then acc else acc ++ [s]) []

/-- absoluteBoundingBox of a node. -/
structure BBox where
  x : ℚ
  y : ℚ
  width : ℚ
  height : ℚ
  deriving Repr, DecidableEq

/-- An RGBA color object; the alpha channel may be absent (the code reads
fill.color.a ?? 1). -/
structure FigmaColor where
  r : ℚ
  g : ℚ
  b : ℚ
  a : Option ℚ
  deriving Repr, DecidableEq

/-- A paint (fill or stroke).  Only the fields the modelled code reads. -/
structure FigmaFill where
  fillType : String
  color : Option FigmaColor
  opacity : Option ℚ
  deriving Repr, DecidableEq

/-- An effect.  visible is optional because the source tests it for
truthiness (an absent field is falsy). -/
structure FigmaEffect where
  effectType : String
  visible : Option Bool
  offset : Option (ℚ × ℚ)
  radius : Option ℚ
  color : Option FigmaColor
  deriving Repr, DecidableEq

/-- The typography style block of a node.  The source reads the block with
?? empty-object, so an absent block behaves exactly like a block with every
field absent; the embedding therefore always stores the block, with all
fields optional. -/
structure TextStyle where
  fontFamily : Option String
  fontSize : Option ℚ
  fontWeight : Option ℚ
  lineHeightPx : Option ℚ
  letterSpacing : Option ℚ
  textAlignHorizontal : Option String
  deriving Repr, DecidableEq

/-- Default: the empty style block. -/
instance : Inhabited TextStyle :=
  ⟨⟨none, none, none, none, none, none⟩⟩

/-- The scalar fields of a FigmaNode (everything except children).
styles is the shared-style reference map; its values are the style ids.
It stays an Option because the audit distinguishes an absent map (falsy)
from an empty one (truthy). -/
structure NodeData where
  id : String
  name : String
  nodeType : String
  absoluteBoundingBox : Option BBox
  paddingTop : Option ℚ
  paddingRight : Option ℚ
  paddingBottom : Option ℚ
  paddingLeft : Option ℚ
  fills : List FigmaFill
  strokes : List FigmaFill
  effects : List FigmaEffect
  style : TextStyle
  styles : Option (List String)
  characters : Option String
  layoutMode : Option String
  itemSpacing : Option ℚ
  cornerRadius : Option ℚ
  opacity : Option ℚ
  deriving Repr, DecidableEq

/-- A node with no interesting fields, for building examples. -/
def plainData (id name nodeType : String) : NodeData :=
  ⟨id, name, nodeType, none, none, none, none, none, [], [], [],
    default, none, none, none, none, none, none⟩

/-- The recursive document graph.  An absent children array is modelled as
the empty list (the source treats the two identically everywhere). -/
inductive FigmaNode where
  | mk (data : NodeData) (children : List FigmaNode)

/-- Scalar fields of a node. -/
def FigmaNode.data : FigmaNode → NodeData
  | .mk d _ => d

/-- Children of a node. -/
def FigmaNode.children : FigmaNode → List FigmaNode
  | .mk _ cs => cs

theorem FigmaNode.mk_data_children (n : FigmaNode) : FigmaNode.mk n.data n.children = n := by
  cases n; rfl

mutual

/-- Simultaneous recursion principle for the nested tree type. -/
def figmaNodeRec {P : FigmaNode → Prop} {Q : List FigmaNode → Prop}
    (h1 : ∀ d cs, Q cs → P (.mk d cs)) (h2 : Q [])
    (h3 : ∀ c cs, P c → Q cs → Q (c :: cs)) : ∀ n, P n
  | .mk d cs => h1 d cs (figmaNodeRecList h1 h2 h3 cs)

/-- List part of the simultaneous recursion principle. -/
def figmaNodeRecList {P : FigmaNode → Prop} {Q : List FigmaNode → Prop}
    (h1 : ∀ d cs, Q cs → P (.mk d cs)) (h2 : Q [])
    (h3 : ∀ c cs, P c → Q cs → Q (c :: cs)) : ∀ cs, Q cs
  | [] => h2
  | c :: cs => h3 c cs (figmaNodeRec h1 h2 h3 c) (figmaNodeRecList h1 h2 h3 cs)

end

mutual

/-- Pre-order listing of a subtree: the node itself, then its children's
subtrees in order.  This is the visiting order of every traversal in the
source. -/
def preorder : FigmaNode → List FigmaNode
  | .mk d cs => .mk d cs :: preorderList cs

/-- Pre-order listing of a forest. -/
def preorderList : List FigmaNode → List FigmaNode
  | [] => []
  | c :: cs => preorder c ++ preorderList cs

end

theorem preorder_eq (n : FigmaNode) : preorder n = n :: preorderList n.children := by
  cases n; rfl

theorem self_mem_preorder (n : FigmaNode) : n ∈ preorder n := by
  rw [preorder_eq]; exact List.mem_cons_self _ _

/-- NodePathResult from src/utils/nodes.ts. -/
structure NodePathResult where
  node : FigmaNode
  parent : Option FigmaNode
  ancestors : List FigmaNode
  page : Option FigmaNode

mutual

/-- The inner walk closure of findNodePath (src/utils/nodes.ts, lines
44-62), carrying the accumulated ancestors, parent and page. -/
def findNodePathWalk (target : String) :
    FigmaNode → List FigmaNode → Option FigmaNode → Option FigmaNode → Option NodePathResult
  | .mk d cs, ancestors, parent, page =>
    let node : FigmaNode := .mk d cs
    let currentPage := if d.nodeType = "CANVAS" then some node else page
    if normalizeNodeId d.id = target then some ⟨node, parent, ancestors, currentPage⟩
    else findNodePathWalkList target cs (ancestors ++ [node]) (some node) currentPage

/-- The child loop of the walk: first hit wins. -/
def findNodePathWalkList (target : String) :
    List FigmaNode → List FigmaNode → Option FigmaNode → Option FigmaNode → Option NodePathResult
  | [], _, _, _ => none
  | c :: rest, ancestors, parent, page =>
    match findNodePathWalk target c ancestors parent page with
    | some r => some r
    | none => findNodePathWalkList target rest ancestors parent page

end

/-- findNodePath from src/utils/nodes.ts: normalize the requested id, then
walk from the root with empty accumulators. -/
def findNodePath (root : FigmaNode) (nodeId : String) : Option NodePathResult :=
  findNodePathWalk (normalizeNodeId nodeId) root [] none none

/-- Reaches n p m: within the subtree rooted at n, the node m is reached by
descending along the (strict-ancestor) chain p, which starts at n.
Reaches n [] m means m = n. -/
inductive Reaches : FigmaNode → List FigmaNode → FigmaNode → Prop
  | refl (n : FigmaNode) : Reaches n [] n
  | step (n c : FigmaNode) (p : List FigmaNode) (m : FigmaNode) :
      c ∈ n.children → Reaches c p m → Reaches n (n :: p) m

/-- The deepest CANVAS-typed node of a list ordered root-first, i.e. the
nearest canvas ancestor along a root-to-node path. -/
def lastCanvas : List FigmaNode → Option FigmaNode
  | [] => none
  | m :: rest => (lastCanvas rest).orElse fun _ => if m.data.nodeType = "CANVAS" then some m else none

theorem orElse_assoc (a b c : Option FigmaNode) :
    ((a.orElse fun _ => b).orElse fun _ => c) = a.orElse fun _ => (b.orElse fun _ => c) := by
  cases a <;> rfl

theorem lastCanvas_append (l1 l2 : List FigmaNode) :
    lastCanvas (l1 ++ l2) = (lastCanvas l2).orElse fun _ => lastCanvas l1 := by
  induction l1 with
  | nil => rw [List.nil_append]; cases lastCanvas l2 <;> rfl
  | cons m rest ih => rw [List.cons_append, lastCanvas, ih, lastCanvas, orElse_assoc]

/-- TreeNode from src/utils/nodes.ts: the display projection of a node. -/
inductive TreeNode where
  | mk (id name nodeType : String) (children : List TreeNode)

/-- Projected id (already normalized by toTree). -/
def TreeNode.id : TreeNode → String
  | .mk i _ _ _ => i

/-- Projected name. -/
def TreeNode.name : TreeNode → String
  | .mk _ n _ _ => n

/-- Projected type. -/
def TreeNode.nodeType : TreeNode → String
  | .mk _ _ t _ => t

/-- Projected children. -/
def TreeNode.children : TreeNode → List TreeNode
  | .mk _ _ _ cs => cs

mutual

/-- toTree from src/utils/nodes.ts: depth-bounded projection keeping only
id (normalized), name and type. -/
def toTree : FigmaNode → ℤ → TreeNode
  | .mk d cs, depth =>
    let nextDepth := depth - 1
    let children := if nextDepth > 0 then toTreeList cs nextDepth else []
    .mk (normalizeNodeId d.id) d.name d.nodeType children

/-- The children.map of toTree. -/
def toTreeList : List FigmaNode → ℤ → List TreeNode
  | [], _ => []
  | c :: cs, depth => toTree c depth :: toTreeList cs depth

end

theorem toTreeList_eq_map (cs : List FigmaNode) (depth : ℤ) :
    toTreeList cs depth = cs.map (toTree · depth) := by
  induction cs with
  | nil => rfl
  | cons c rest ih => rw [toTreeList, ih, List.map_cons]

theorem toTree_eq (n : FigmaNode) (depth : ℤ) :
    toTree n depth = .mk (normalizeNodeId n.data.id) n.data.name n.data.nodeType
      (if depth - 1 > 0 then n.children.map (toTree · (depth - 1)) else []) := by
  cases n with
  | mk d cs =>
    rw [toTree, toTreeList_eq_map]
    rfl

mutual

/-- All nodes of a projected tree, the projection-side analogue of
preorder. -/
def flattenTree : TreeNode → List TreeNode
  | .mk i na t cs => .mk i na t cs :: flattenTreeList cs

/-- All nodes of a projected forest. -/
def flattenTreeList : List TreeNode → List TreeNode
  | [] => []
  | c :: cs => flattenTree c ++ flattenTreeList cs

end

/-- The source tag of a PaddingValues. -/
inductive PaddingSource where
  | explicit
  | inferred
  | none
  deriving Repr, DecidableEq

/-- PaddingValues from src/commands/styles.ts. -/
structure PaddingValues where
  top : Option ℚ
  right : Option ℚ
  bottom : Option ℚ
  left : Option ℚ
  source : PaddingSource
  deriving Repr, DecidableEq

/-- The all-absent padding result tagged none. -/
def noPadding : PaddingValues :=
  ⟨Option.none, Option.none, Option.none, Option.none, PaddingSource.none⟩

/-- One step of the gap-minimum loop.  The accumulator starts at
POSITIVE_INFINITY, modelled as Option.none; Math.min of the accumulator and
a finite gap is therefore always finite. -/
def optMin (acc : Option ℚ) (v : ℚ) : Option ℚ :=
  some (match acc with
        | Option.none => v
        | some q => min q v)

/-- The bounds of a bounded child (the non-null assertion bounds! in the
source; callers only pass children whose box is present). -/
def childBounds (c : FigmaNode) : BBox :=
  c.data.absoluteBoundingBox.getD ⟨0, 0, 0, 0⟩

/-- top = child.y - parent.y. -/
def gapTop (pb cb : BBox) : ℚ := cb.y - pb.y

/-- left = child.x - parent.x. -/
def gapLeft (pb cb : BBox) : ℚ := cb.x - pb.x

/-- right = (parent.x + parent.width) - (child.x + child.width). -/
def gapRight (pb cb : BBox) : ℚ := (pb.x + pb.width) - (cb.x + cb.width)

/-- bottom = (parent.y + parent.height) - (child.y + child.height). -/
def gapBottom (pb cb : BBox) : ℚ := (pb.y + pb.height) - (cb.y + cb.height)

/-- The per-edge minimum loop of inferPaddingFromChildren, starting from
the POSITIVE_INFINITY accumulator. -/
def foldMinGap (pb : BBox) (gap : BBox → BBox → ℚ) (cs : List FigmaNode) : Option ℚ :=
  cs.foldl (fun acc c => optMin acc (gap pb (childBounds c))) Option.none

/-- inferPaddingFromChildren from src/commands/styles.ts, lines 92-155.
The guard mirrors the source's early return: no bounding box or no
children array or an empty one.  parentBounds is read only after the guard
has established it is present (getD supplies the never-used default). -/
def inferPaddingFromChildren (n : FigmaNode) : PaddingValues :=
  if n.data.paddingTop.isSome ∨ n.data.paddingRight.isSome ∨
      n.data.paddingBottom.isSome ∨ n.data.paddingLeft.isSome then
    ⟨n.data.paddingTop, n.data.paddingRight, n.data.paddingBottom, n.data.paddingLeft,
      PaddingSource.explicit⟩
  else if n.data.absoluteBoundingBox.isNone ∨ n.children.isEmpty then noPadding
  else if (n.children.filter fun c => c.data.absoluteBoundingBox.isSome).isEmpty then noPadding
  else
    let pb := n.data.absoluteBoundingBox.getD ⟨0, 0, 0, 0⟩
    let bounded := n.children.filter fun c => c.data.absoluteBoundingBox.isSome
    match foldMinGap pb gapTop bounded, foldMinGap pb gapRight bounded,
        foldMinGap pb gapBottom bounded, foldMinGap pb gapLeft bounded with
    | some t, some r, some b, some l =>
      if t < 0 ∨ r < 0 ∨ b < 0 ∨ l < 0 then noPadding
      else ⟨some (round2 t), some (round2 r), some (round2 b), some (round2 l),
        PaddingSource.inferred⟩
    | _, _, _, _ => noPadding

/-- JavaScript truthiness filter for an optional string: the empty string
is falsy. -/
def truthyS : Option String → Option String
  | some s => if s = "" then Option.none else some s
  | Option.none => Option.none

/-- JavaScript truthiness filter for an optional number: zero is falsy
(NaN cannot occur among JSON-derived numbers). -/
def truthyQ : Option ℚ → Option ℚ
  | some v => if v = 0 then Option.none else some v
  | Option.none => Option.none

/-- colorFromFill from src/commands/styles.ts: first the solidity check,
then fill opacity if numeric, else the color's own alpha, else 1. -/
def colorFromFill (fill : FigmaFill) : Option String :=
  match fill.color with
  | Option.none => Option.none
  | some c =>
    if fill.fillType = "SOLID" then
      some (toHex c.r c.g c.b (fill.opacity.getD (c.a.getD 1)))
    else Option.none

/-- firstSolidFill from src/commands/styles.ts. -/
def firstSolidFill (n : FigmaNode) : Option String :=
  n.data.fills.findSome? colorFromFill

/-- firstSolidStroke from src/commands/styles.ts. -/
def firstSolidStroke (n : FigmaNode) : Option String :=
  n.data.strokes.findSome? colorFromFill

/-- The formatted string of one drop shadow. -/
def dropShadowStr (e : FigmaEffect) : String :=
  let x := (e.offset.map Prod.fst).getD 0
  let y := (e.offset.map Prod.snd).getD 0
  let blur := e.radius.getD 0
  let color := match e.color with
    | some c => toHex c.r c.g c.b (c.a.getD 1)
    | Option.none => "#00000033"
  qToStr x ++ "px " ++ qToStr y ++ "px " ++ qToStr blur ++ "px " ++ color

/-- boxShadowFromEffects from src/commands/styles.ts. -/
def boxShadowFromEffects (effects : List FigmaEffect) : Option String :=
  let shadows := (effects.filter fun e => e.visible.getD false && e.effectType == "DROP_SHADOW").map
    dropShadowStr
  if shadows.isEmpty then Option.none else some (String.intercalate ", " shadows)

/-- One optional entry of the css record. -/
def optEntry (key : String) : Option String → List (String × String)
  | some v => [(key, v)]
  | Option.none => []

/-- Pixel-suffixed rendering of a number. -/
def pxStr (v : ℚ) : String := qToStr v ++ "px"

/-- The typography block of buildStyleDetails (src/commands/styles.ts,
lines 177-182): each field is emitted when truthy, numeric fields with a
px suffix, the String(...) conversions verbatim, text alignment
lower-cased. -/
def typoEntries (style : TextStyle) : List (String × String) :=
  optEntry "font-family" (truthyS style.fontFamily) ++
  optEntry "font-size" ((truthyQ style.fontSize).map pxStr) ++
  optEntry "font-weight" ((truthyQ style.fontWeight).map qToStr) ++
  optEntry "line-height" ((truthyQ style.lineHeightPx).map pxStr) ++
  optEntry "letter-spacing" ((truthyQ style.letterSpacing).map pxStr) ++
  optEntry "text-align" ((truthyS style.textAlignHorizontal).map String.toLower)

/-- The css record built by buildStyleDetails (src/commands/styles.ts,
lines 157-233), as an association list in insertion order.  The structured
layout echo, raw style block and bounding-box echo of the source's return
value carry no further computation and are not modelled. -/
def buildCssEntries (n : FigmaNode) : List (String × String) :=
  let d := n.data
  let background := firstSolidFill n
  let stroke := firstSolidStroke n
  let boxShadow := boxShadowFromEffects d.effects
  let padding := inferPaddingFromChildren n
  (if d.nodeType = "TEXT" then optEntry "color" background
   else optEntry "background-color" background) ++
  (match stroke with
   | some s => [("border-color", s), ("border-style", "solid")]
   | Option.none => []) ++
  typoEntries d.style ++
  (match d.absoluteBoundingBox with
   | some bb => [("width", pxStr bb.width), ("height", pxStr bb.height)]
   | Option.none => []) ++
  (let layoutMode := d.layoutMode.getD ""
   if layoutMode = "HORIZONTAL" ∨ layoutMode = "VERTICAL" then
     [("display", "flex"),
      ("flex-direction", if layoutMode = "VERTICAL" then "column" else "row")]
   else []) ++
  optEntry "gap" (d.itemSpacing.map pxStr) ++
  (if padding.top.isSome ∨ padding.right.isSome ∨ padding.bottom.isSome ∨ padding.left.isSome then
     [("padding", pxStr (padding.top.getD 0) ++ " " ++ pxStr (padding.right.getD 0) ++ " " ++
        pxStr (padding.bottom.getD 0) ++ " " ++ pxStr (padding.left.getD 0))]
   else []) ++
  optEntry "border-radius" (d.cornerRadius.map pxStr) ++
  optEntry "opacity" (d.opacity.map qToStr) ++
  optEntry "box-shadow" boxShadow

/-- NodeSnapshot from src/commands/diff.ts. -/
structure NodeSnapshot where
  id : String
  name : String
  nodeType : String
  width : Option ℚ
  height : Option ℚ
  layoutMode : Option String
  itemSpacing : Option ℚ
  paddingTop : Option ℚ
  paddingRight : Option ℚ
  paddingBottom : Option ℚ
  paddingLeft : Option ℚ
  childCount : Nat
  textContent : String
  textStyles : List String
  fillColors : List String
  deriving Repr

/-- styleSignature from src/commands/diff.ts: family|weight|size|lineHeight
for text nodes, with JavaScript falsy fallbacks. -/
def styleSignature (n : FigmaNode) : Option String :=
  if n.data.nodeType = "TEXT" then
    let st := n.data.style
    let family := (truthyS st.fontFamily).getD "Unknown"
    let weight := ((truthyQ st.fontWeight).map qToStr).getD ""
    let size := ((truthyQ st.fontSize).map qToStr).getD ""
    let lineHeight := ((truthyQ st.lineHeightPx).map qToStr).getD ""
    some (family ++ "|" ++ weight ++ "|" ++ size ++ "|" ++ lineHeight)
  else Option.none

/-- firstSolidFillColor from src/commands/diff.ts: the first solid fill
with a color, with fill opacity preferred over the color's alpha. -/
def firstSolidFillColor (n : FigmaNode) : Option String :=
  n.data.fills.findSome? fun fill =>
    match fill.color with
    | some c =>
      if fill.fillType = "SOLID" then
        some (toHex c.r c.g c.b (fill.opacity.getD (c.a.getD 1)))
      else Option.none
    | Option.none => Option.none

/-- snapshot from src/commands/diff.ts, lines 66-102: scalar layout fields
of the root plus subtree-wide text, style-signature and fill-color
collections; the two collections are deduplicated and sorted. -/
def snapshot (n : FigmaNode) : NodeSnapshot :=
  let walkOrder := preorder n
  let textParts := walkOrder.filterMap fun m =>
    if m.data.nodeType = "TEXT" then
      let text := trimString (m.data.characters.getD "")
      if text = "" then Option.none else some text
    else Option.none
  { id := n.data.id
    name := n.data.name
    nodeType := n.data.nodeType
    width := n.data.absoluteBoundingBox.map (·.width)
    height := n.data.absoluteBoundingBox.map (·.height)
    layoutMode := n.data.layoutMode
    itemSpacing := n.data.itemSpacing
    paddingTop := n.data.paddingTop
    paddingRight := n.data.paddingRight
    paddingBottom := n.data.paddingBottom
    paddingLeft := n.data.paddingLeft
    childCount := n.children.length
    textContent := String.intercalate "\n" textParts
    textStyles := sortJs (dedupInsert (walkOrder.filterMap styleSignature))
    fillColors := sortJs (dedupInsert (walkOrder.filterMap firstSolidFillColor)) }

/-- The result record of arrayDiff. -/
structure ArrayDiffResult where
  added : List String
  removed : List String
  deriving Repr, DecidableEq

/-- arrayDiff from src/commands/diff.ts, lines 104-110: added = in after
but not before, removed = in before but not after. -/
def arrayDiff (before after : List String) : ArrayDiffResult :=
  ⟨after.filter fun item => !before.contains item,
   before.filter fun item => !after.contains item⟩

/-- The styles block of buildDiff (src/commands/diff.ts, lines 142-147). -/
structure DiffStyles where
  textStylesAddedInB : List String
  textStylesRemovedFromA : List String
  fillColorsAddedInB : List String
  fillColorsRemovedFromA : List String
  deriving Repr, DecidableEq

/-- The style/color part of buildDiff from src/commands/diff.ts. -/
def buildDiffStyles (a b : NodeSnapshot) : DiffStyles :=
  let textStyles := arrayDiff a.textStyles b.textStyles
  let fillColors := arrayDiff a.fillColors b.fillColors
  ⟨textStyles.added, textStyles.removed, fillColors.added, fillColors.removed⟩

/-- The audit hex strings contributed by one node: one per solid fill with
a color, using the color's own alpha (the audit ignores fill opacity). -/
def auditColorsOfNode (n : FigmaNode) : List String :=
  n.data.fills.filterMap fun fill =>
    match fill.color with
    | some c =>
      if fill.fillType = "SOLID" then some (rgbaToHex c.r c.g c.b (c.a.getD 1))
      else Option.none
    | Option.none => Option.none

/-- The distinct fill colors seen by the audit traversal, in first-seen
order. -/
def auditColors (root : FigmaNode) : List String :=
  dedupInsert (((preorder root).map auditColorsOfNode).flatten)

/-- The distinct font families seen by the audit traversal (text nodes,
truthy fontFamily). -/
def auditFonts (root : FigmaNode) : List String :=
  dedupInsert ((preorder root).filterMap fun m =>
    if m.data.nodeType = "TEXT" then truthyS m.data.style.fontFamily else Option.none)

/-- The distinct font sizes seen by the audit traversal (text nodes,
truthy fontSize). -/
def auditFontSizes (root : FigmaNode) : List ℚ :=
  dedupInsert ((preorder root).filterMap fun m =>
    if m.data.nodeType = "TEXT" then truthyQ m.data.style.fontSize else Option.none)

/-- The distinct shared-style ids referenced anywhere in the subtree. -/
def auditStylesUsed (root : FigmaNode) : List String :=
  dedupInsert (((preorder root).map fun m => m.data.styles.getD []).flatten)

/-- Names of unstyled nodes: text/rectangle/ellipse nodes with no styles
object that nonetheless declare a solid fill. -/
def auditUnstyled (root : FigmaNode) : List String :=
  (preorder root).filterMap fun m =>
    if (m.data.nodeType = "TEXT" ∨ m.data.nodeType = "RECTANGLE" ∨ m.data.nodeType = "ELLIPSE")
        ∧ m.data.styles.isNone then
      if m.data.fills.any fun f => f.fillType == "SOLID" then some m.data.name else Option.none
    else Option.none

/-- Number of nodes of one type in the subtree. -/
def countType (root : FigmaNode) (t : String) : Nat :=
  ((preorder root).filter fun m => m.data.nodeType == t).length

/-- The stats block of AuditResult from the audit command. -/
structure AuditStats where
  totalNodes : Nat
  components : Nat
  componentInstances : Nat
  frames : Nat
  textNodes : Nat
  uniqueColors : Nat
  uniqueFonts : Nat
  uniqueFontSizes : Nat
  stylesUsed : Nat
  unstyled : Nat
  deriving Repr, DecidableEq

/-- The statistics the audit traversal collects over a subtree. -/
def auditStats (root : FigmaNode) : AuditStats :=
  { totalNodes := (preorder root).length
    components := countType root "COMPONENT"
    componentInstances := countType root "INSTANCE"
    frames := countType root "FRAME"
    textNodes := countType root "TEXT"
    uniqueColors := (auditColors root).length
    uniqueFonts := (auditFonts root).length
    uniqueFontSizes := (auditFontSizes root).length
    stylesUsed := (auditStylesUsed root).length
    unstyled := (auditUnstyled root).length }

/-- One conditional deduction step of runAudit: if the rule fires, the
running score drops by the given amount. -/
def deductIf (c : Prop) [Decidable c] (amount score : ℤ) : ℤ :=
  if c then score - amount else score

/-- The score computation of runAudit: start at 100, apply the seven
deductions in source order (innermost first), clamp at 0.
definedStylesCount is the number of file-level shared styles
(Object.keys(file.styles).length). -/
def auditScore (s : AuditStats) (definedStylesCount : Nat) : ℤ :=
  max 0
    (deductIf (definedStylesCount = 0 ∧ 10 < s.totalNodes) 10
      (deductIf (s.components = 0 ∧ 20 < s.totalNodes) 15
        (deductIf (10 < s.unstyled) 5
          (deductIf ((s.componentInstances : ℚ) / (max s.totalNodes 1 : ℚ) < 1/10 ∧
              50 < s.totalNodes) 10
            (deductIf (10 < s.uniqueFontSizes) 5
              (deductIf (3 < s.uniqueFonts) 10
                (deductIf (20 < s.uniqueColors) 10 100)))))))

/-- A JavaScript number as it can reach resolveExportScale from the CLI
parser (parseFloat can produce NaN and infinities). -/
inductive JsNumber where
  | nan
  | posInf
  | negInf
  | finite (q : ℚ)
  deriving Repr, DecidableEq

/-- Number.isFinite. -/
def JsNumber.isFinite : JsNumber → Bool
  | .finite _ => true
  | _ => false

/-- The JavaScript strict-less-than on numbers: any comparison with NaN is
false. -/
def jsLt : JsNumber → JsNumber → Bool
  | .nan, _ => false
  | _, .nan => false
  | .negInf, .negInf => false
  | .negInf, _ => true
  | _, .negInf => false
  | .posInf, _ => false
  | .finite _, .posInf => true
  | .finite p, .finite q => decide (p < q)

/-- resolveExportScale from src/commands/export.ts, lines 26-32. -/
def resolveExportScale (scaleOption : Option JsNumber) (retina : Bool) : Except String JsNumber :=
  let scale := scaleOption.getD (if retina then .finite 3 else .finite 2)
  if !scale.isFinite || jsLt scale (.finite 1) || jsLt (.finite 4) scale then
    .error "Scale must be between 1 and 4."
  else .ok scale

/-- The spec's example document: Document 0:0 > Page A 1:1 (canvas) >
Frame 2:1 > Title 3:1 (text). -/
def exTitle : FigmaNode := .mk (plainData "3:1" "Title" "TEXT") []

/-- The frame of the example document. -/
def exFrame : FigmaNode := .mk (plainData "2:1" "Frame" "FRAME") [exTitle]

/-- The page of the example document. -/
def exPage : FigmaNode := .mk (plainData "1:1" "Page A" "CANVAS") [exFrame]

/-- The root of the example document. -/
def exDoc : FigmaNode := .mk (plainData "0:0" "Document" "DOCUMENT") [exPage]

/-- A projected tree contains itself. -/
theorem self_mem_flattenTree (t : TreeNode) : t ∈ flattenTree t := by
  cases t with
  | mk i na ty cs => rw [flattenTree]; exact List.mem_cons_self _ _

/-- C5: Node-ID normalization is idempotent, and a dash-separated
two-part identifier normalizes to the colon-separated canonical form with
surrounding whitespace trimmed. -/
theorem nodeId_normalization_idempotent :
    (∀ s : String, normalizeNodeId (normalizeNodeId s) = normalizeNodeId s) ∧
    normalizeNodeId "2070-20929" = "2070:20929" ∧
    normalizeNodeId " 2070-20929  " = "2070:20929" :=
  ⟨normalizeNodeId_idem, by decide, by decide⟩

/-- C6: the depth-bounded projection keeps exactly id, name and type,
recursively projects children at depth - 1, stops once remaining depth
reaches zero (depth 1 gives a bare root), and on the example document at
depth 2 yields the single child Page A with no further children. -/
theorem tree_projection_depth_bounded :
    (∀ (n : FigmaNode) (d : ℤ), 0 < d →
      (toTree n d).id = normalizeNodeId n.data.id ∧
      (toTree n d).name = n.data.name ∧
      (toTree n d).nodeType = n.data.nodeType ∧
      (toTree n d).children = (if 0 < d - 1 then n.children.map (toTree · (d - 1)) else [])) ∧
    (∀ n : FigmaNode, (toTree n 1).children = []) ∧
    ((toTree exDoc 2).children.map TreeNode.name = ["Page A"] ∧
      ((toTree exDoc 2).children.map TreeNode.children) = [[]]) := by
  refine ⟨fun n d _ => ?_, fun n => ?_, ?_, ?_⟩
  · rw [toTree_eq]
    refine ⟨rfl, rfl, rfl, ?_⟩
    show (if d - 1 > 0 then _ else _) = _
    by_cases h : 0 < d - 1
    · simp only [gt_iff_lt, h, if_true]
    · simp only [gt_iff_lt, h, if_false]
  · rw [toTree_eq]
    norm_num
    rfl
  · rfl
  · rfl

/-- Closed witness for the depth-bound theorem at the example document
and depth 2. -/
theorem tree_projection_depth_bounded_witness :
    (toTree exDoc 2).id = normalizeNodeId exDoc.data.id ∧
    (toTree exDoc 2).children =
      (if (0 : ℤ) < 2 - 1 then exDoc.children.map (toTree · (2 - 1)) else []) :=
  ⟨(tree_projection_depth_bounded.1 exDoc 2 (by decide)).1,
   (tree_projection_depth_bounded.1 exDoc 2 (by decide)).2.2.2⟩

theorem flatten_toTree_ids :
    ∀ (n : FigmaNode) (d : ℤ), ∀ t ∈ flattenTree (toTree n d),
      ∃ m ∈ preorder n, t.id = normalizeNodeId m.data.id := by
  have main := figmaNodeRec
    (P := fun n => ∀ d : ℤ, ∀ t ∈ flattenTree (toTree n d),
      ∃ m ∈ preorder n, t.id = normalizeNodeId m.data.id)
    (Q := fun cs => ∀ d : ℤ, ∀ t ∈ flattenTreeList (cs.map (toTree · d)),
      ∃ m ∈ preorderList cs, t.id = normalizeNodeId m.data.id)
    (fun nd cs ih => by
      intro depth t ht
      rw [toTree_eq] at ht
      rw [flattenTree] at ht
      rcases List.mem_cons.mp ht with h | h
      · refine ⟨.mk nd cs, self_mem_preorder _, ?_⟩
        rw [h]
        rfl
      · by_cases hd : (0 : ℤ) < depth - 1
        · rw [if_pos hd] at h
          obtain ⟨m, hm, hid⟩ := ih (depth - 1) t h
          refine ⟨m, ?_, hid⟩
          rw [preorder_eq]
          exact List.mem_cons_of_mem _ hm
        · rw [if_neg hd] at h
          simp [flattenTreeList] at h)
    (by intro d t ht; simp [flattenTreeList] at ht)
    (fun c cs ihc ihcs => by
      intro d t ht
      rw [List.map_cons, flattenTreeList] at ht
      rcases List.mem_append.mp ht with h | h
      · obtain ⟨m, hm, hid⟩ := ihc d t h
        exact ⟨m, by rw [preorderList]; exact List.mem_append_left _ hm, hid⟩
      · obtain ⟨m, hm, hid⟩ := ihcs d t h
        exact ⟨m, by rw [preorderList]; exact List.mem_append_right _ hm, hid⟩)
  intro n d t ht
  exact main n d t ht

/-- C10: every id in a projected tree, at every level, is the
normalization of a source node's id, hence contains no dash and carries no
surrounding whitespace; for zero or negative depth the projection still
returns the root with an empty children list. -/
theorem tree_projection_ids_are_normalized :
    (∀ (n : FigmaNode) (d : ℤ), ∀ t ∈ flattenTree (toTree n d),
      (∃ m ∈ preorder n, t.id = normalizeNodeId m.data.id) ∧
      normalizeNodeId t.id = t.id ∧
      trimString t.id = t.id ∧
      '-' ∉ t.id.data) ∧
    (∀ (n : FigmaNode) (d : ℤ), d ≤ 0 →
      toTree n d = .mk (normalizeNodeId n.data.id) n.data.name n.data.nodeType []) := by
  constructor
  · intro n d t ht
    obtain ⟨m, hm, hid⟩ := flatten_toTree_ids n d t ht
    refine ⟨⟨m, hm, hid⟩, ?_, ?_, ?_⟩
    · rw [hid]; exact normalizeNodeId_idem _
    · rw [hid]; exact normalizeNodeId_trimmed _
    · rw [hid]; exact normalizeNodeId_no_dash _
  · intro n d hd
    rw [toTree_eq, if_neg (by omega)]

/-- Closed witness for the normalized-ids theorem: the root of the
example projection at depth 1, and the zero-depth behavior at depth 0. -/
theorem tree_projection_ids_are_normalized_witness :
    (normalizeNodeId (toTree exDoc 1).id = (toTree exDoc 1).id ∧
      '-' ∉ (toTree exDoc 1).id.data) ∧
    toTree exDoc 0 = .mk (normalizeNodeId exDoc.data.id) exDoc.data.name exDoc.data.nodeType [] :=
  ⟨⟨(tree_projection_ids_are_normalized.1 exDoc 1 (toTree exDoc 1)
      (self_mem_flattenTree _)).2.1,
    (tree_projection_ids_are_normalized.1 exDoc 1 (toTree exDoc 1)
      (self_mem_flattenTree _)).2.2.2⟩,
   tree_projection_ids_are_normalized.2 exDoc 0 (by decide)⟩

/-- The match predicate of the walk: normalized node id equals the
(already normalized) target. -/
def matchesTarget (target : String) (m : FigmaNode) : Bool :=
  normalizeNodeId m.data.id == target

theorem find?_append_left {p : FigmaNode → Bool} {l1 : List FigmaNode} {x : FigmaNode}
    (l2 : List FigmaNode) (h : l1.find? p = some x) : (l1 ++ l2).find? p = some x := by
  induction l1 with
  | nil => simp [List.find?] at h
  | cons a tl ih =>
    rw [List.cons_append]
    cases hp : p a with
    | true => rwa [List.find?_cons_of_pos _ hp] at h ⊢
    | false =>
      rw [List.find?_cons_of_neg _ (by simp [hp])] at h ⊢
      exact ih h

theorem find?_append_right {p : FigmaNode → Bool} {l1 : List FigmaNode}
    (l2 : List FigmaNode) (h : ∀ m ∈ l1, p m = false) :
    (l1 ++ l2).find? p = l2.find? p := by
  induction l1 with
  | nil => rw [List.nil_append]
  | cons a tl ih =>
    rw [List.cons_append, List.find?_cons_of_neg _ (by simp [h a (List.mem_cons_self a tl)])]
    exact ih fun m hm => h m (List.mem_cons_of_mem _ hm)

theorem orElse_none_right (a : Option FigmaNode) :
    (a.orElse fun _ => Option.none) = a := by
  cases a <;> rfl

theorem getLast?_cons_orElse (n : FigmaNode) (p : List FigmaNode) (par : Option FigmaNode) :
    ((n :: p).getLast?.orElse fun _ => par) = (p.getLast?.orElse fun _ => some n) := by
  cases p with
  | nil => rfl
  | cons q qs =>
    rw [List.getLast?_cons_cons]
    have hne : (q :: qs).getLast?.isSome := by
      rw [List.getLast?_isSome]; exact List.cons_ne_nil q qs
    obtain ⟨x, hx⟩ := Option.isSome_iff_exists.mp hne
    rw [hx]
    rfl

/-- The walk of findNodePath is correct at one node: a none result means
no pre-order match in the subtree, and a some result carries the first
pre-order match together with the ancestor chain, the parent derived from
it, and the deepest canvas on the path (with the accumulators as
fallbacks). -/
def WalkOk (t : String) (n : FigmaNode) : Prop :=
  ∀ anc par pg,
    (findNodePathWalk t n anc par pg = Option.none →
      ∀ m ∈ preorder n, matchesTarget t m = false) ∧
    (∀ r, findNodePathWalk t n anc par pg = some r →
      ∃ p, Reaches n p r.node ∧
        r.ancestors = anc ++ p ∧
        r.parent = (p.getLast?.orElse fun _ => par) ∧
        r.page = ((lastCanvas (p ++ [r.node])).orElse fun _ => pg) ∧
        (preorder n).find? (matchesTarget t) = some r.node)

/-- The list version of WalkOk, for the child loop. -/
def WalkListOk (t : String) (cs : List FigmaNode) : Prop :=
  ∀ anc par pg,
    (findNodePathWalkList t cs anc par pg = Option.none →
      ∀ m ∈ preorderList cs, matchesTarget t m = false) ∧
    (∀ r, findNodePathWalkList t cs anc par pg = some r →
      ∃ c ∈ cs, ∃ p, Reaches c p r.node ∧
        r.ancestors = anc ++ p ∧
        r.parent = (p.getLast?.orElse fun _ => par) ∧
        r.page = ((lastCanvas (p ++ [r.node])).orElse fun _ => pg) ∧
        (preorderList cs).find? (matchesTarget t) = some r.node)

theorem walkOk_step (t : String) (nd : NodeData) (cs : List FigmaNode)
    (ih : WalkListOk t cs) : WalkOk t (.mk nd cs) := by
  intro anc par pg
  have heq : findNodePathWalk t (.mk nd cs) anc par pg =
      (if normalizeNodeId nd.id = t then
        some ⟨.mk nd cs, par, anc, if nd.nodeType = "CANVAS" then some (.mk nd cs) else pg⟩
      else findNodePathWalkList t cs (anc ++ [.mk nd cs]) (some (.mk nd cs))
        (if nd.nodeType = "CANVAS" then some (.mk nd cs) else pg)) := by
    rw [findNodePathWalk]
  by_cases hm : normalizeNodeId nd.id = t
  · rw [heq, if_pos hm]
    constructor
    · intro h; exact absurd h (by simp)
    · intro r hr
      injection hr with hr
      subst hr
      refine ⟨[], Reaches.refl _, by rw [List.append_nil], rfl, ?_, ?_⟩
      · show _ = ((lastCanvas [FigmaNode.mk nd cs]).orElse fun _ => pg)
        rw [lastCanvas, lastCanvas]
        show _ = ((Option.none.orElse fun _ =>
          if (FigmaNode.mk nd cs).data.nodeType = "CANVAS"
          then some (.mk nd cs) else Option.none).orElse fun _ => pg)
        by_cases hc : nd.nodeType = "CANVAS"
        · simp only [FigmaNode.data, hc, if_pos]
          rfl
        · simp only [FigmaNode.data, hc, if_neg, ite_false]
          rfl
      · rw [preorder_eq]
        exact List.find?_cons_of_pos _ (by simp [matchesTarget, FigmaNode.data, hm])
  · rw [heq, if_neg hm]
    have hmB : matchesTarget t (.mk nd cs) = false := by
      simp [matchesTarget, FigmaNode.data, hm]
    obtain ⟨ihn, ihs⟩ := ih (anc ++ [.mk nd cs]) (some (.mk nd cs))
      (if nd.nodeType = "CANVAS" then some (.mk nd cs) else pg)
    constructor
    · intro h m hmem
      rw [preorder_eq] at hmem
      rcases List.mem_cons.mp hmem with h1 | h1
      · rw [h1]; exact hmB
      · exact ihn h m h1
    · intro r hr
      obtain ⟨c, hc, p, hreach, hanc, hpar, hpage, hfind⟩ := ihs r hr
      refine ⟨.mk nd cs :: p, Reaches.step _ c p r.node hc hreach, ?_, ?_, ?_, ?_⟩
      · rw [hanc, List.append_assoc]
        rfl
      · rw [hpar, getLast?_cons_orElse]
      · rw [hpage, List.cons_append, lastCanvas, orElse_assoc]
        congr 1
        funext u
        by_cases hcv : nd.nodeType = "CANVAS"
        · simp only [FigmaNode.data, hcv, if_pos]
          rfl
        · simp only [FigmaNode.data, hcv, ite_false]
          rfl
      · rw [preorder_eq, List.find?_cons_of_neg _ (by simp [hmB])]
        exact hfind

theorem walkListOk_nil (t : String) : WalkListOk t [] := by
  intro anc par pg
  constructor
  · intro _ m hmem
    simp [preorderList] at hmem
  · intro r hr
    rw [findNodePathWalkList] at hr
    exact absurd hr (by simp)

theorem walkListOk_cons (t : String) (c : FigmaNode) (cs : List FigmaNode)
    (ihc : WalkOk t c) (ihcs : WalkListOk t cs) : WalkListOk t (c :: cs) := by
  intro anc par pg
  have heq : findNodePathWalkList t (c :: cs) anc par pg =
      (match findNodePathWalk t c anc par pg with
       | some r => some r
       | Option.none => findNodePathWalkList t cs anc par pg) := by
    rw [findNodePathWalkList]
  cases hwc : findNodePathWalk t c anc par pg with
  | some r0 =>
    rw [heq, hwc]
    constructor
    · intro h; exact absurd h (by simp)
    · intro r hr
      injection hr with hr
      subst hr
      obtain ⟨p, hreach, hanc, hpar, hpage, hfind⟩ := (ihc anc par pg).2 r0 hwc
      refine ⟨c, List.mem_cons_self c cs, p, hreach, hanc, hpar, hpage, ?_⟩
      rw [preorderList]
      exact find?_append_left _ hfind
  | none =>
    rw [heq, hwc]
    have hnone := (ihc anc par pg).1 hwc
    constructor
    · intro h m hmem
      rw [preorderList] at hmem
      rcases List.mem_append.mp hmem with h1 | h1
      · exact hnone m h1
      · exact (ihcs anc par pg).1 h m h1
    · intro r hr
      obtain ⟨c1, hc1, p, hreach, hanc, hpar, hpage, hfind⟩ := (ihcs anc par pg).2 r hr
      refine ⟨c1, List.mem_cons_of_mem _ hc1, p, hreach, hanc, hpar, hpage, ?_⟩
      rw [preorderList, find?_append_right _ hnone]
      exact hfind

theorem walkOk_all (t : String) : ∀ n, WalkOk t n :=
  figmaNodeRec (walkOk_step t) (walkListOk_nil t) (walkListOk_cons t)

/-- C2: findNodePath returns the first pre-order node whose normalized id
equals the normalized target, with its parent, the root-to-parent ancestor
chain and the nearest canvas on the path, and returns the explicit
not-found signal exactly when no node matches; on the example document,
resolving "3-1" yields Title with parent 2:1, page 1:1 and ancestors
[0:0, 1:1, 2:1]. -/
theorem path_resolution_first_preorder_match :
    (∀ (root : FigmaNode) (nodeId : String),
      (findNodePath root nodeId = Option.none ↔
        ∀ m ∈ preorder root, normalizeNodeId m.data.id ≠ normalizeNodeId nodeId) ∧
      (∀ r, findNodePath root nodeId = some r →
        (preorder root).find? (matchesTarget (normalizeNodeId nodeId)) = some r.node ∧
        Reaches root r.ancestors r.node ∧
        r.parent = r.ancestors.getLast? ∧
        r.page = lastCanvas (r.ancestors ++ [r.node]))) ∧
    ((findNodePath exDoc "3-1").map (fun r => r.node.data.name) = some "Title" ∧
      (findNodePath exDoc "3-1").map (fun r => r.parent.map (·.data.id)) = some (some "2:1") ∧
      (findNodePath exDoc "3-1").map (fun r => r.page.map (·.data.id)) = some (some "1:1") ∧
      (findNodePath exDoc "3-1").map (fun r => r.ancestors.map (·.data.id)) =
        some ["0:0", "1:1", "2:1"]) := by
  constructor
  · intro root nodeId
    have hOk := walkOk_all (normalizeNodeId nodeId) root [] Option.none Option.none
    constructor
    · constructor
      · intro h m hmem
        have := hOk.1 h m hmem
        simpa [matchesTarget] using this
      · intro hall
        cases h : findNodePath root nodeId with
        | none => rfl
        | some r =>
          obtain ⟨p, _, _, _, _, hfind⟩ := hOk.2 r h
          have hmem := List.mem_of_find?_eq_some hfind
          have hpred := List.find?_some hfind
          rw [matchesTarget, beq_iff_eq] at hpred
          exact absurd hpred (hall r.node hmem)
    · intro r hr
      obtain ⟨p, hreach, hanc, hpar, hpage, hfind⟩ := hOk.2 r hr
      rw [List.nil_append] at hanc
      subst hanc
      refine ⟨hfind, hreach, ?_, ?_⟩
      · rw [hpar, orElse_none_right]
      · rw [hpage, orElse_none_right]
  · exact ⟨by decide, by decide, by decide, by decide⟩

/-- Closed witness for the path-resolution theorem, applying it on the
example document with target "3-1". -/
theorem path_resolution_first_preorder_match_witness :
    Reaches exDoc [exDoc, exPage, exFrame] exTitle ∧
    (preorder exDoc).find? (matchesTarget (normalizeNodeId "3-1")) = some exTitle :=
  have hr : findNodePath exDoc "3-1" =
      some ⟨exTitle, some exFrame, [exDoc, exPage, exFrame], some exPage⟩ := rfl
  have h := (path_resolution_first_preorder_match.1 exDoc "3-1").2 _ hr
  ⟨h.2.1, h.1⟩


theorem foldl_optMin_some (g : FigmaNode → ℚ) (l : List FigmaNode) (a : ℚ) :
    l.foldl (fun acc c => optMin acc (g c)) (some a) =
      some (l.foldl (fun acc c => min acc (g c)) a) := by
  induction l generalizing a with
  | nil => rfl
  | cons c rest ih => exact ih (min a (g c))

theorem foldMinGap_cons (pb : BBox) (gap : BBox → BBox → ℚ) (c : FigmaNode)
    (rest : List FigmaNode) :
    foldMinGap pb gap (c :: rest) =
      some (rest.foldl (fun acc x => min acc (gap pb (childBounds x))) (gap pb (childBounds c))) := by
  rw [foldMinGap, List.foldl_cons]
  exact foldl_optMin_some _ rest _

/-- v is the minimum of the list l. -/
def isMinOf (v : ℚ) (l : List ℚ) : Prop :=
  v ∈ l ∧ ∀ x ∈ l, v ≤ x

theorem foldl_min_mem (l : List ℚ) : ∀ a, l.foldl min a ∈ a :: l := by
  induction l with
  | nil => exact fun a => List.mem_singleton.mpr rfl
  | cons x xs ih =>
    intro a
    rw [List.foldl_cons]
    rcases List.mem_cons.mp (ih (min a x)) with h | h
    · rcases min_cases a x with ⟨he, _⟩ | ⟨he, _⟩
      · rw [h, he]; exact List.mem_cons_self _ _
      · rw [h, he]; exact List.mem_cons_of_mem _ (List.mem_cons_self _ _)
    · exact List.mem_cons_of_mem _ (List.mem_cons_of_mem _ h)

theorem foldl_min_le (l : List ℚ) : ∀ a, ∀ x ∈ a :: l, l.foldl min a ≤ x := by
  induction l with
  | nil =>
    intro a x hx
    rw [List.mem_singleton.mp hx]
    exact le_refl _
  | cons y ys ih =>
    intro a x hx
    rw [List.foldl_cons]
    rcases List.mem_cons.mp hx with h | h
    · rw [h]
      exact le_trans (ih (min a y) _ (List.mem_cons_self _ _)) (min_le_left a y)
    · rcases List.mem_cons.mp h with h1 | h1
      · rw [h1]
        exact le_trans (ih (min a y) _ (List.mem_cons_self _ _)) (min_le_right a y)
      · exact ih (min a y) x (List.mem_cons_of_mem _ h1)

theorem foldMinGap_isMinOf (pb : BBox) (gap : BBox → BBox → ℚ) (c : FigmaNode)
    (rest : List FigmaNode) (v : ℚ)
    (h : foldMinGap pb gap (c :: rest) = some v) :
    isMinOf v ((c :: rest).map fun x => gap pb (childBounds x)) := by
  rw [foldMinGap_cons] at h
  injection h with h
  subst h
  rw [List.map_cons, ← List.foldl_map (fun x => gap pb (childBounds x)) min rest _]
  exact ⟨foldl_min_mem _ _, foldl_min_le _ _⟩

/-- C1: padding inference.  Explicit padding fields win verbatim with tag
explicit; lacking a bounding box, children, or bounded children gives tag
none with no edges; otherwise the per-edge minimum gap over the bounded
children decides: a negative minimum gives tag none, else each minimum is
rounded to two decimals with tag inferred.  (In the rational model of JSON
numbers a non-finite minimum cannot arise; the source's Number.isFinite
guard corresponds to the Option.none branch of the fold.) -/
theorem padding_inference_cases (n : FigmaNode) :
    ((n.data.paddingTop.isSome ∨ n.data.paddingRight.isSome ∨
        n.data.paddingBottom.isSome ∨ n.data.paddingLeft.isSome) →
      inferPaddingFromChildren n =
        ⟨n.data.paddingTop, n.data.paddingRight, n.data.paddingBottom, n.data.paddingLeft,
          PaddingSource.explicit⟩) ∧
    (¬(n.data.paddingTop.isSome ∨ n.data.paddingRight.isSome ∨
        n.data.paddingBottom.isSome ∨ n.data.paddingLeft.isSome) →
      (n.data.absoluteBoundingBox = Option.none ∨ n.children = [] ∨
        n.children.filter (fun c => c.data.absoluteBoundingBox.isSome) = []) →
      inferPaddingFromChildren n = noPadding) ∧
    (∀ pb c rest,
      ¬(n.data.paddingTop.isSome ∨ n.data.paddingRight.isSome ∨
        n.data.paddingBottom.isSome ∨ n.data.paddingLeft.isSome) →
      n.data.absoluteBoundingBox = some pb →
      n.children.filter (fun c => c.data.absoluteBoundingBox.isSome) = c :: rest →
      ∃ mt mr mb ml,
        isMinOf mt ((c :: rest).map fun x => gapTop pb (childBounds x)) ∧
        isMinOf mr ((c :: rest).map fun x => gapRight pb (childBounds x)) ∧
        isMinOf mb ((c :: rest).map fun x => gapBottom pb (childBounds x)) ∧
        isMinOf ml ((c :: rest).map fun x => gapLeft pb (childBounds x)) ∧
        inferPaddingFromChildren n =
          (if mt < 0 ∨ mr < 0 ∨ mb < 0 ∨ ml < 0 then noPadding
           else ⟨some (round2 mt), some (round2 mr), some (round2 mb), some (round2 ml),
             PaddingSource.inferred⟩)) := by
  refine ⟨fun hex => ?_, fun hex hnone => ?_, fun pb c rest hex hbb hfilter => ?_⟩
  · rw [inferPaddingFromChildren, if_pos hex]
  · rw [inferPaddingFromChildren, if_neg hex]
    rcases hnone with h | h | h
    · rw [if_pos (Or.inl (by rw [h]; rfl))]
    · rw [if_pos (Or.inr (by rw [h]; rfl))]
    · by_cases hguard : n.data.absoluteBoundingBox.isNone = true ∨ n.children.isEmpty = true
      · rw [if_pos hguard]
      · rw [if_neg hguard, if_pos (by rw [h]; rfl)]
  · have hne : n.children ≠ [] := by
      intro hempty
      rw [hempty] at hfilter
      exact absurd hfilter (by simp)
    have hguard : ¬(n.data.absoluteBoundingBox.isNone = true ∨ n.children.isEmpty = true) := by
      rw [hbb]
      simp [List.isEmpty_iff, hne]
    have hbdd : ¬((n.children.filter fun c => c.data.absoluteBoundingBox.isSome).isEmpty = true) := by
      rw [hfilter]
      simp
    simp only [inferPaddingFromChildren]
    rw [if_neg hex, if_neg hguard, if_neg hbdd, hbb, Option.getD_some, hfilter]
    cases ht : foldMinGap pb gapTop (c :: rest) with
    | none => rw [foldMinGap_cons] at ht; exact absurd ht (by simp)
    | some mt =>
      cases hr : foldMinGap pb gapRight (c :: rest) with
      | none => rw [foldMinGap_cons] at hr; exact absurd hr (by simp)
      | some mr =>
        cases hb : foldMinGap pb gapBottom (c :: rest) with
        | none => rw [foldMinGap_cons] at hb; exact absurd hb (by simp)
        | some mb =>
          cases hl : foldMinGap pb gapLeft (c :: rest) with
          | none => rw [foldMinGap_cons] at hl; exact absurd hl (by simp)
          | some ml =>
            refine ⟨mt, mr, mb, ml,
              foldMinGap_isMinOf pb gapTop c rest mt ht,
              foldMinGap_isMinOf pb gapRight c rest mr hr,
              foldMinGap_isMinOf pb gapBottom c rest mb hb,
              foldMinGap_isMinOf pb gapLeft c rest ml hl, ?_⟩
            rfl

/-- The spec's explicit-padding example: declared padding (12,16,12,16). -/
def exExplicitNode : FigmaNode :=
  .mk { plainData "1:1" "Card" "FRAME" with
          paddingTop := some 12, paddingRight := some 16,
          paddingBottom := some 12, paddingLeft := some 16 } []

/-- The child of the spec's inferred-padding example, at (10,20,80,60). -/
def exInferredChild : FigmaNode :=
  .mk { plainData "2:2" "Content" "FRAME" with
          absoluteBoundingBox := some ⟨10, 20, 80, 60⟩ } []

/-- The parent of the spec's inferred-padding example, at (0,0,100,100). -/
def exInferredParent : FigmaNode :=
  .mk { plainData "2:1" "Card" "FRAME" with
          absoluteBoundingBox := some ⟨0, 0, 100, 100⟩ } [exInferredChild]

/-- Closed witness for the padding-inference theorem: the explicit example
yields (12,16,12,16) tagged explicit, and the (0,0,100,100) parent with a
(10,20,80,60) child yields (20,10,20,10) tagged inferred. -/
theorem padding_inference_cases_witness :
    inferPaddingFromChildren exExplicitNode =
      ⟨some 12, some 16, some 12, some 16, PaddingSource.explicit⟩ ∧
    inferPaddingFromChildren exInferredParent =
      ⟨some 20, some 10, some 20, some 10, PaddingSource.inferred⟩ := by
  constructor
  · exact (padding_inference_cases exExplicitNode).1 (by decide)
  · obtain ⟨mt, mr, mb, ml, hmt, hmr, hmb, hml, heq⟩ :=
      (padding_inference_cases exInferredParent).2.2 ⟨0, 0, 100, 100⟩ exInferredChild []
        (by decide) rfl rfl
    have hcb : childBounds exInferredChild = ⟨10, 20, 80, 60⟩ := rfl
    have e1 : mt = 20 := by
      have h1 := hmt.1
      rw [List.map_cons, List.map_nil, hcb] at h1
      rw [List.mem_singleton.mp h1, gapTop]
      norm_num
    have e2 : mr = 10 := by
      have h1 := hmr.1
      rw [List.map_cons, List.map_nil, hcb] at h1
      rw [List.mem_singleton.mp h1, gapRight]
      norm_num
    have e3 : mb = 20 := by
      have h1 := hmb.1
      rw [List.map_cons, List.map_nil, hcb] at h1
      rw [List.mem_singleton.mp h1, gapBottom]
      norm_num
    have e4 : ml = 10 := by
      have h1 := hml.1
      rw [List.map_cons, List.map_nil, hcb] at h1
      rw [List.mem_singleton.mp h1, gapLeft]
      norm_num
    rw [heq, e1, e2, e3, e4, if_neg (by norm_num)]
    have h20 : round2 20 = 20 := by norm_num [round2, jsRound]
    have h10 : round2 10 = 10 := by norm_num [round2, jsRound]
    rw [h20, h10]


/-- The deduction total described by the spec: seven independent,
cumulative deductions. -/
def auditDeductions (s : AuditStats) (definedStylesCount : Nat) : ℤ :=
  (if 20 < s.uniqueColors then 10 else 0) +
  (if 3 < s.uniqueFonts then 10 else 0) +
  (if 10 < s.uniqueFontSizes then 5 else 0) +
  (if (s.componentInstances : ℚ) / (max s.totalNodes 1 : ℚ) < 1/10 ∧ 50 < s.totalNodes
    then 10 else 0) +
  (if 10 < s.unstyled then 5 else 0) +
  (if s.components = 0 ∧ 20 < s.totalNodes then 15 else 0) +
  (if definedStylesCount = 0 ∧ 10 < s.totalNodes then 10 else 0)

theorem deductIf_eq (c : Prop) [Decidable c] (amount score : ℤ) :
    deductIf c amount score = score - (if c then amount else 0) := by
  rw [deductIf]
  split_ifs <;> omega

theorem ite_deduction_nonneg (c : Prop) [Decidable c] {amount : ℤ} (h : 0 ≤ amount) :
    0 ≤ if c then amount else 0 := by
  split_ifs
  · exact h
  · exact le_refl 0

theorem auditScore_closed (s : AuditStats) (ds : Nat) :
    auditScore s ds = max 0 (100 - auditDeductions s ds) := by
  rw [auditScore, auditDeductions]
  simp only [deductIf_eq]
  congr 1
  ring

theorem auditDeductions_nonneg (s : AuditStats) (ds : Nat) : 0 ≤ auditDeductions s ds := by
  rw [auditDeductions]
  repeat refine add_nonneg ?_ (ite_deduction_nonneg _ (by norm_num))
  exact ite_deduction_nonneg _ (by norm_num)

/-- C3: the audit score is exactly 100 minus the seven spec deductions,
clamped at 0; it always lies in [0, 100]; and raising the distinct-color
count beyond the 20-color threshold never increases it.  Stated both for
the stats collected from an audited subtree and for arbitrary stats. -/
theorem audit_score_rules :
    (∀ (root : FigmaNode) (ds : Nat),
      auditScore (auditStats root) ds = max 0 (100 - auditDeductions (auditStats root) ds)) ∧
    (∀ (s : AuditStats) (ds : Nat),
      auditScore s ds = max 0 (100 - auditDeductions s ds) ∧
      0 ≤ auditScore s ds ∧ auditScore s ds ≤ 100) ∧
    (∀ (s : AuditStats) (ds : Nat) (c1 c2 : Nat), 20 < c1 → c1 ≤ c2 →
      auditScore { s with uniqueColors := c2 } ds ≤
        auditScore { s with uniqueColors := c1 } ds) := by
  have main : ∀ (s : AuditStats) (ds : Nat),
      auditScore s ds = max 0 (100 - auditDeductions s ds) ∧
      0 ≤ auditScore s ds ∧ auditScore s ds ≤ 100 := by
    intro s ds
    have hnn := auditDeductions_nonneg s ds
    rw [auditScore_closed]
    exact ⟨rfl, le_max_left _ _, by omega⟩
  refine ⟨fun root ds => (main (auditStats root) ds).1, main, fun s ds c1 c2 h1 h2 => ?_⟩
  rw [auditScore_closed, auditScore_closed]
  have : auditDeductions { s with uniqueColors := c2 } ds =
      auditDeductions { s with uniqueColors := c1 } ds := by
    rw [auditDeductions, auditDeductions]
    dsimp only
    rw [if_pos (by omega : 20 < c2), if_pos h1]
  rw [this]

/-- Closed witness for the audit-score theorem: raising the color count
from 21 to 30 with all other stats fixed does not increase the score. -/
theorem audit_score_rules_witness :
    auditScore ⟨5, 1, 1, 0, 1, 30, 1, 1, 1, 0⟩ 3 ≤ auditScore ⟨5, 1, 1, 0, 1, 21, 1, 1, 1, 0⟩ 3 :=
  audit_score_rules.2.2 ⟨5, 1, 1, 0, 1, 0, 1, 1, 1, 0⟩ 3 21 30 (by decide) (by decide)

/-- C4: the diff engine's style-signature and fill-color set differences
are symmetric: the added set of diff(A,B) is the removed set of diff(B,A)
and vice versa, for both collections; and on snapshots produced by
snapshot the four reported lists are lexicographically sorted. -/
theorem diff_engine_symmetry :
    (∀ a b : NodeSnapshot,
      (buildDiffStyles a b).textStylesAddedInB = (buildDiffStyles b a).textStylesRemovedFromA ∧
      (buildDiffStyles a b).textStylesRemovedFromA = (buildDiffStyles b a).textStylesAddedInB ∧
      (buildDiffStyles a b).fillColorsAddedInB = (buildDiffStyles b a).fillColorsRemovedFromA ∧
      (buildDiffStyles a b).fillColorsRemovedFromA = (buildDiffStyles b a).fillColorsAddedInB) ∧
    (∀ x y : FigmaNode,
      (buildDiffStyles (snapshot x) (snapshot y)).textStylesAddedInB.Sorted strLe ∧
      (buildDiffStyles (snapshot x) (snapshot y)).textStylesRemovedFromA.Sorted strLe ∧
      (buildDiffStyles (snapshot x) (snapshot y)).fillColorsAddedInB.Sorted strLe ∧
      (buildDiffStyles (snapshot x) (snapshot y)).fillColorsRemovedFromA.Sorted strLe) := by
  refine ⟨fun a b => ⟨rfl, rfl, rfl, rfl⟩, fun x y => ⟨?_, ?_, ?_, ?_⟩⟩ <;>
    exact List.Pairwise.filter _ (sortJs_sorted _)

theorem resolveExportScale_finite (q : ℚ) (r : Bool) :
    resolveExportScale (some (.finite q)) r =
      if q < 1 ∨ 4 < q then .error "Scale must be between 1 and 4." else .ok (.finite q) := by
  simp only [resolveExportScale, Option.getD_some]
  by_cases h : q < 1 ∨ 4 < q
  · rw [if_pos h, if_pos (show (!(JsNumber.finite q).isFinite ||
        jsLt (.finite q) (.finite 1) || jsLt (.finite 4) (.finite q)) = true by
      simpa [JsNumber.isFinite, jsLt] using h)]
  · rw [if_neg h]
    push_neg at h
    have hg : (!(JsNumber.finite q).isFinite ||
        jsLt (.finite q) (.finite 1) || jsLt (.finite 4) (.finite q)) = false := by
      simp only [JsNumber.isFinite, Bool.not_true, jsLt, Bool.false_or, Bool.or_eq_false_iff,
        decide_eq_false_iff_not]
      exact ⟨not_lt.mpr h.1, not_lt.mpr h.2⟩
    rw [if_neg (by rw [hg]; exact Bool.false_ne_true)]

/-- C7: export-scale resolution defaults to 2, to 3 under the retina flag,
honors an explicit in-range scale regardless of retina, and throws exactly
when the resolved scale is not a finite number in [1, 4]. -/
theorem export_scale_resolution :
    resolveExportScale Option.none false = .ok (.finite 2) ∧
    resolveExportScale Option.none true = .ok (.finite 3) ∧
    (∀ (q : ℚ) (r : Bool), 1 ≤ q → q ≤ 4 →
      resolveExportScale (some (.finite q)) r = .ok (.finite q)) ∧
    (∀ (s : JsNumber) (r : Bool),
      (∃ e, resolveExportScale (some s) r = .error e) ↔
        ¬ ∃ q : ℚ, s = .finite q ∧ 1 ≤ q ∧ q ≤ 4) := by
  refine ⟨rfl, rfl, fun q r h1 h4 => ?_, fun s r => ?_⟩
  · rw [resolveExportScale_finite, if_neg (by push_neg; exact ⟨h1, h4⟩)]
  · cases s with
    | nan =>
      constructor
      · rintro _ ⟨q, hq, _⟩
        exact JsNumber.noConfusion hq
      · intro _
        exact ⟨"Scale must be between 1 and 4.", rfl⟩
    | posInf =>
      constructor
      · rintro _ ⟨q, hq, _⟩
        exact JsNumber.noConfusion hq
      · intro _
        exact ⟨"Scale must be between 1 and 4.", rfl⟩
    | negInf =>
      constructor
      · rintro _ ⟨q, hq, _⟩
        exact JsNumber.noConfusion hq
      · intro _
        exact ⟨"Scale must be between 1 and 4.", rfl⟩
    | finite q =>
      rw [resolveExportScale_finite]
      constructor
      · rintro ⟨e, he⟩ ⟨q', hq', hq1, hq4⟩
        injection hq' with hq'
        subst hq'
        rw [if_neg (by push_neg; exact ⟨hq1, hq4⟩)] at he
        exact Except.noConfusion he
      · intro hno
        have hrange : q < 1 ∨ 4 < q := by
          by_contra hc
          push_neg at hc
          exact hno ⟨q, rfl, hc.1, hc.2⟩
        exact ⟨"Scale must be between 1 and 4.", by rw [if_pos hrange]⟩

/-- Closed witness for the export-scale theorem: an explicit scale of 2 is
honored under the retina flag, and NaN is rejected. -/
theorem export_scale_resolution_witness :
    resolveExportScale (some (.finite 2)) true = .ok (.finite 2) ∧
    (∃ e, resolveExportScale (some .nan) false = .error e) :=
  ⟨export_scale_resolution.2.2.1 2 true (by norm_num) (by norm_num),
   (export_scale_resolution.2.2.2 .nan false).mpr
     (by rintro ⟨q, hq, _⟩; exact JsNumber.noConfusion hq)⟩

theorem lookup_append (l1 l2 : List (String × String)) (k : String) :
    (l1 ++ l2).lookup k = ((l1.lookup k).orElse fun _ => l2.lookup k) := by
  induction l1 with
  | nil => rfl
  | cons p rest ih =>
    cases p with
    | mk a b =>
      rw [List.cons_append, List.lookup, List.lookup]
      cases h : k == a
      · simpa [h] using ih
      · simp [h]

theorem optEntry_lookup_self (k : String) (v : Option String) :
    (optEntry k v).lookup k = v := by
  cases v
  · rfl
  · simp [optEntry, List.lookup]

theorem lookup_none_of_keys {l : List (String × String)} {k : String}
    (h : ∀ p ∈ l, (k == p.1) = false) : l.lookup k = Option.none := by
  induction l with
  | nil => rfl
  | cons p rest ih =>
    cases p with
    | mk a b =>
      rw [List.lookup, h ⟨a, b⟩ (List.mem_cons_self _ _)]
      exact ih fun q hq => h q (List.mem_cons_of_mem _ hq)

theorem optEntry_keys (k : String) (v : Option String) :
    ∀ p ∈ optEntry k v, p.1 = k := by
  cases v
  · intro p hp; exact absurd hp (by simp [optEntry])
  · intro p hp
    rw [List.mem_singleton.mp hp]

theorem orElse_none_right_gen {α : Type} (a : Option α) :
    (a.orElse fun _ => Option.none) = a := by
  cases a <;> rfl

theorem none_orElse_gen {α : Type} (f : Unit → Option α) :
    (Option.none.orElse f) = f () := rfl

theorem optEntry_lookup_ne (k k' : String) (v : Option String) (h : (k == k') = false) :
    (optEntry k' v).lookup k = Option.none :=
  lookup_none_of_keys fun p hp => by rw [optEntry_keys k' v p hp]; exact h

theorem buildCss_lookup_typo (n : FigmaNode) (k : String)
    (h1 : (k == "color") = false) (h2 : (k == "background-color") = false)
    (h3 : (k == "border-color") = false) (h4 : (k == "border-style") = false)
    (h5 : (k == "width") = false) (h6 : (k == "height") = false)
    (h7 : (k == "display") = false) (h8 : (k == "flex-direction") = false)
    (h9 : (k == "gap") = false) (h10 : (k == "padding") = false)
    (h11 : (k == "border-radius") = false) (h12 : (k == "opacity") = false)
    (h13 : (k == "box-shadow") = false) :
    (buildCssEntries n).lookup k = (typoEntries n.data.style).lookup k := by
  have hbg : (if n.data.nodeType = "TEXT" then optEntry "color" (firstSolidFill n)
      else optEntry "background-color" (firstSolidFill n)).lookup k = Option.none := by
    split_ifs
    · exact optEntry_lookup_ne _ _ _ h1
    · exact optEntry_lookup_ne _ _ _ h2
  have hbd : (match firstSolidStroke n with
      | some s => [("border-color", s), ("border-style", "solid")]
      | Option.none => []).lookup k = Option.none := by
    cases firstSolidStroke n with
    | none => rfl
    | some s =>
      refine lookup_none_of_keys fun p hp => ?_
      rcases List.mem_cons.mp hp with h | h
      · rw [h]; exact h3
      · rw [List.mem_singleton.mp h]; exact h4
  have hsz : (match n.data.absoluteBoundingBox with
      | some bb => [("width", pxStr bb.width), ("height", pxStr bb.height)]
      | Option.none => []).lookup k = Option.none := by
    cases n.data.absoluteBoundingBox with
    | none => rfl
    | some bb =>
      refine lookup_none_of_keys fun p hp => ?_
      rcases List.mem_cons.mp hp with h | h
      · rw [h]; exact h5
      · rw [List.mem_singleton.mp h]; exact h6
  have hfx : (if n.data.layoutMode.getD "" = "HORIZONTAL" ∨ n.data.layoutMode.getD "" = "VERTICAL"
      then [("display", "flex"),
        ("flex-direction", if n.data.layoutMode.getD "" = "VERTICAL" then "column" else "row")]
      else []).lookup k = Option.none := by
    split_ifs <;>
      first
      | rfl
      | (refine lookup_none_of_keys fun p hp => ?_
         rcases List.mem_cons.mp hp with h | h
         · rw [h]; exact h7
         · rw [List.mem_singleton.mp h]; exact h8)
  have hpd : (if (inferPaddingFromChildren n).top.isSome ∨ (inferPaddingFromChildren n).right.isSome
        ∨ (inferPaddingFromChildren n).bottom.isSome ∨ (inferPaddingFromChildren n).left.isSome
      then [("padding",
        pxStr ((inferPaddingFromChildren n).top.getD 0) ++ " " ++
        pxStr ((inferPaddingFromChildren n).right.getD 0) ++ " " ++
        pxStr ((inferPaddingFromChildren n).bottom.getD 0) ++ " " ++
        pxStr ((inferPaddingFromChildren n).left.getD 0))]
      else []).lookup k = Option.none := by
    split_ifs
    · refine lookup_none_of_keys fun p hp => ?_
      rw [List.mem_singleton.mp hp]
      exact h10
    · rfl
  simp only [buildCssEntries, lookup_append, hbg, hbd, hsz, hfx, hpd,
    optEntry_lookup_ne k "gap" _ h9, optEntry_lookup_ne k "border-radius" _ h11,
    optEntry_lookup_ne k "opacity" _ h12, optEntry_lookup_ne k "box-shadow" _ h13,
    none_orElse_gen, orElse_none_right_gen]

theorem typoEntries_lookup_family (st : TextStyle) :
    (typoEntries st).lookup "font-family" = truthyS st.fontFamily := by
  simp only [typoEntries, lookup_append, optEntry_lookup_self,
    optEntry_lookup_ne "font-family" "font-size" _ (by decide),
    optEntry_lookup_ne "font-family" "font-weight" _ (by decide),
    optEntry_lookup_ne "font-family" "line-height" _ (by decide),
    optEntry_lookup_ne "font-family" "letter-spacing" _ (by decide),
    optEntry_lookup_ne "font-family" "text-align" _ (by decide),
    none_orElse_gen, orElse_none_right_gen]

theorem typoEntries_lookup_size (st : TextStyle) :
    (typoEntries st).lookup "font-size" = (truthyQ st.fontSize).map pxStr := by
  simp only [typoEntries, lookup_append, optEntry_lookup_self,
    optEntry_lookup_ne "font-size" "font-family" _ (by decide),
    optEntry_lookup_ne "font-size" "font-weight" _ (by decide),
    optEntry_lookup_ne "font-size" "line-height" _ (by decide),
    optEntry_lookup_ne "font-size" "letter-spacing" _ (by decide),
    optEntry_lookup_ne "font-size" "text-align" _ (by decide),
    none_orElse_gen, orElse_none_right_gen]

theorem typoEntries_lookup_weight (st : TextStyle) :
    (typoEntries st).lookup "font-weight" = (truthyQ st.fontWeight).map qToStr := by
  simp only [typoEntries, lookup_append, optEntry_lookup_self,
    optEntry_lookup_ne "font-weight" "font-family" _ (by decide),
    optEntry_lookup_ne "font-weight" "font-size" _ (by decide),
    optEntry_lookup_ne "font-weight" "line-height" _ (by decide),
    optEntry_lookup_ne "font-weight" "letter-spacing" _ (by decide),
    optEntry_lookup_ne "font-weight" "text-align" _ (by decide),
    none_orElse_gen, orElse_none_right_gen]

theorem typoEntries_lookup_lineHeight (st : TextStyle) :
    (typoEntries st).lookup "line-height" = (truthyQ st.lineHeightPx).map pxStr := by
  simp only [typoEntries, lookup_append, optEntry_lookup_self,
    optEntry_lookup_ne "line-height" "font-family" _ (by decide),
    optEntry_lookup_ne "line-height" "font-size" _ (by decide),
    optEntry_lookup_ne "line-height" "font-weight" _ (by decide),
    optEntry_lookup_ne "line-height" "letter-spacing" _ (by decide),
    optEntry_lookup_ne "line-height" "text-align" _ (by decide),
    none_orElse_gen, orElse_none_right_gen]

theorem typoEntries_lookup_letterSpacing (st : TextStyle) :
    (typoEntries st).lookup "letter-spacing" = (truthyQ st.letterSpacing).map pxStr := by
  simp only [typoEntries, lookup_append, optEntry_lookup_self,
    optEntry_lookup_ne "letter-spacing" "font-family" _ (by decide),
    optEntry_lookup_ne "letter-spacing" "font-size" _ (by decide),
    optEntry_lookup_ne "letter-spacing" "font-weight" _ (by decide),
    optEntry_lookup_ne "letter-spacing" "line-height" _ (by decide),
    optEntry_lookup_ne "letter-spacing" "text-align" _ (by decide),
    none_orElse_gen, orElse_none_right_gen]

theorem typoEntries_lookup_textAlign (st : TextStyle) :
    (typoEntries st).lookup "text-align" = (truthyS st.textAlignHorizontal).map String.toLower := by
  simp only [typoEntries, lookup_append, optEntry_lookup_self,
    optEntry_lookup_ne "text-align" "font-family" _ (by decide),
    optEntry_lookup_ne "text-align" "font-size" _ (by decide),
    optEntry_lookup_ne "text-align" "font-weight" _ (by decide),
    optEntry_lookup_ne "text-align" "line-height" _ (by decide),
    optEntry_lookup_ne "text-align" "letter-spacing" _ (by decide),
    none_orElse_gen, orElse_none_right_gen]

/-- A text node whose style block carries fontSize 0: present but falsy. -/
def exZeroFontSizeNode : FigmaNode :=
  .mk { plainData "9:1" "ZeroSize" "TEXT" with
          style := ⟨Option.none, some 0, Option.none, Option.none, Option.none, Option.none⟩ } []

/-- C8 counterexample: the claim says a present typography field is
emitted regardless of its value, but a present fontSize of 0 is falsy in
the source's truthiness check, so no font-size entry is produced. -/
theorem typography_present_zero_dropped :
    exZeroFontSizeNode.data.style.fontSize = some 0 ∧
    (buildCssEntries exZeroFontSizeNode).lookup "font-size" = Option.none := by
  refine ⟨rfl, ?_⟩
  rw [buildCss_lookup_typo exZeroFontSizeNode "font-size" (by decide) (by decide) (by decide)
    (by decide) (by decide) (by decide) (by decide) (by decide) (by decide) (by decide)
    (by decide) (by decide) (by decide), typoEntries_lookup_size]
  simp [exZeroFontSizeNode, plainData, truthyQ, FigmaNode.data]

/-- C8 (amended): each typography field of the style block is copied into
the CSS map exactly when it is present and truthy (non-zero number or
non-empty string), verbatim, with a px suffix on font size, line height
and letter spacing, and lower-casing on text alignment; a present falsy
field (0 or empty string) is dropped. -/
theorem typography_truthy_fields (n : FigmaNode) :
    (buildCssEntries n).lookup "font-family" = truthyS n.data.style.fontFamily ∧
    (buildCssEntries n).lookup "font-size" = (truthyQ n.data.style.fontSize).map pxStr ∧
    (buildCssEntries n).lookup "font-weight" = (truthyQ n.data.style.fontWeight).map qToStr ∧
    (buildCssEntries n).lookup "line-height" = (truthyQ n.data.style.lineHeightPx).map pxStr ∧
    (buildCssEntries n).lookup "letter-spacing" =
      (truthyQ n.data.style.letterSpacing).map pxStr ∧
    (buildCssEntries n).lookup "text-align" =
      (truthyS n.data.style.textAlignHorizontal).map String.toLower := by
  refine ⟨?_, ?_, ?_, ?_, ?_, ?_⟩ <;>
    rw [buildCss_lookup_typo n _ (by decide) (by decide) (by decide) (by decide) (by decide)
      (by decide) (by decide) (by decide) (by decide) (by decide) (by decide) (by decide)
      (by decide)]
  · exact typoEntries_lookup_family _
  · exact typoEntries_lookup_size _
  · exact typoEntries_lookup_weight _
  · exact typoEntries_lookup_lineHeight _
  · exact typoEntries_lookup_letterSpacing _
  · exact typoEntries_lookup_textAlign _

theorem toByteHex_one : toByteHex 1 = "ff" := by
  have h : jsRound ((1 : ℚ) * 255) = 255 := by norm_num [jsRound]
  rw [toByteHex, h]
  decide

theorem toByteHex_zero : toByteHex 0 = "00" := by
  have h : jsRound ((0 : ℚ) * 255) = 0 := by norm_num [jsRound]
  rw [toByteHex, h]
  decide

theorem toByteHex_half : toByteHex (1/2) = "80" := by
  have h : jsRound ((1/2 : ℚ) * 255) = 128 := by norm_num [jsRound]
  rw [toByteHex, h]
  decide

theorem rgbaToHex_red (a : ℚ) : rgbaToHex 1 0 0 a = "#ff0000" := by
  rw [rgbaToHex, toByteHex_one, toByteHex_zero]
  decide

theorem toHex_red_opaque : toHex 1 0 0 1 = "#ff0000" := by
  rw [toHex]
  simp only [toByteHex_one, toByteHex_zero]
  norm_num
  decide

theorem toHex_red_half : toHex 1 0 0 (1/2) = "#ff000080" := by
  rw [toHex]
  simp only [toByteHex_one, toByteHex_zero, toByteHex_half]
  norm_num
  decide

/-- A rectangle with a solid red fill at alpha 1, over a child rectangle
with the same red fill at alpha 1/2. -/
def exAlphaChild : FigmaNode :=
  .mk { plainData "8:2" "B" "RECTANGLE" with
          fills := [⟨"SOLID", some ⟨1, 0, 0, some (1/2)⟩, Option.none⟩] } []

/-- The parent of the alpha example. -/
def exAlphaParent : FigmaNode :=
  .mk { plainData "8:1" "A" "RECTANGLE" with
          fills := [⟨"SOLID", some ⟨1, 0, 0, some 1⟩, Option.none⟩] } [exAlphaChild]

/-- C9: the audit's hex conversion drops alpha entirely, so fills equal in
rgb but different in alpha count as one audit color, while the diff's hex
conversion appends an alpha byte whenever alpha is below 1, so the same
two fills yield two distinct diff colors. -/
theorem audit_hex_alpha_insensitive :
    (∀ r g b a a2 : ℚ, rgbaToHex r g b a = rgbaToHex r g b a2) ∧
    (∀ r g b a : ℚ, toHex r g b a =
      if a < 1 then rgbaToHex r g b a ++ toByteHex a else rgbaToHex r g b a) ∧
    auditColors exAlphaParent = ["#ff0000"] ∧
    (snapshot exAlphaParent).fillColors = ["#ff0000", "#ff000080"] := by
  refine ⟨fun r g b a a2 => rfl, fun r g b a => rfl, ?_, ?_⟩
  · have h : ((preorder exAlphaParent).map auditColorsOfNode).flatten =
        [rgbaToHex 1 0 0 1, rgbaToHex 1 0 0 (1/2)] := rfl
    rw [auditColors, h, rgbaToHex_red, rgbaToHex_red]
    decide
  · show sortJs (dedupInsert ((preorder exAlphaParent).filterMap firstSolidFillColor)) = _
    have h : (preorder exAlphaParent).filterMap firstSolidFillColor =
        [toHex 1 0 0 1, toHex 1 0 0 (1/2)] := rfl
    rw [h, toHex_red_opaque, toHex_red_half]
    decide
